import Mathlib

/-!
Shallow embedding of the performance-estimation core of the
`plots-model-comp-paper` repository (`src/optimizer/profiler.py`).

Dataframe rows become `Row` records over `ℚ`; pandas boolean-mask filtering
becomes `List.filter`; `sort_values("mean_batch_size")` becomes an insertion
sort by batch size; `np.interp` becomes `npInterp`; `assert np.all(np.diff x > 0)`
becomes a `strictIncr` check whose failure is an `Except.error "AssertionError"`;
`print` warnings are collected in a returned list of strings; Python `raise`
becomes `Except.error` and a `False` / `None` result becomes `Option`.
-/

deriving instance DecidableEq for Except

unseal Rat.mul Rat.add Rat.sub Rat.inv Rat.ofScientific

namespace PlotsModelComp

/-- A row of a single-node profile table, as produced by
`single_node_profiles.create_node_profile_df` and consumed by `NodeProfile`.
`mean_throughput_qps` models the column `self.throughput_field =
throughput_stage + "_mean_throughput_qps"`. -/
structure Row where
  gpu_type : String
  num_cpus_per_replica : Nat
  cloud : String
  mean_batch_size : ℚ
  mean_throughput_qps : ℚ
  p99_latency : ℚ
  cost : ℚ
deriving DecidableEq, Repr, Inhabited

/-- `NodeConfig` from `profiler.py` (lines 71-102). -/
structure NodeConfig where
  name : String
  num_cpus : Nat
  gpu_type : String
  batch_size : ℚ
  num_replicas : Nat
  cloud : String
deriving DecidableEq, Repr, Inhabited

/-- First index of the list satisfying `p` (the label returned by a pandas
`idxmin`/`idxmax` style first-occurrence lookup, as a position). -/
def firstIdx (p : α → Prop) [DecidablePred p] : List α → Option Nat
  | [] => none
  | r :: rs => if p r then some 0 else (firstIdx p rs).map (· + 1)

/-- Maximum of a list of rationals, `none` on the empty list. -/
def maxQ : List ℚ → Option ℚ
  | [] => none
  | x :: xs => some (xs.foldl max x)

/-- Minimum of a list of rationals, `none` on the empty list. -/
def minQ : List ℚ → Option ℚ
  | [] => none
  | x :: xs => some (xs.foldl min x)

/-- Tail worker for `npInterp`: `x0, y0` is the last point already passed. -/
def npInterpGo (x x0 y0 : ℚ) : List (ℚ × ℚ) → ℚ
  | [] => y0
  | (x1, y1) :: rest =>
    if x ≤ x1 then y0 + (x - x0) * (y1 - y0) / (x1 - x0)
    else npInterpGo x x1 y1 rest

/-- `np.interp x xp fp` over a list of `(xp, fp)` points with `xp`
non-decreasing: clamps below the first point, interpolates linearly in
between, and clamps above the last point. -/
def npInterp (x : ℚ) : List (ℚ × ℚ) → ℚ
  | [] => 0
  | (x0, y0) :: rest => if x ≤ x0 then y0 else npInterpGo x x0 y0 rest

/-- `np.all(np.diff v > 0)`: consecutive entries strictly increase. -/
def strictIncr : List ℚ → Bool
  | [] => true
  | [_] => true
  | x :: y :: rest => decide (x < y) && strictIncr (y :: rest)

/-- Ordering of profile rows by `mean_batch_size`, used to model
`sort_values("mean_batch_size")`. -/
def batchLE (a b : Row) : Prop := a.mean_batch_size ≤ b.mean_batch_size

instance : DecidableRel batchLE :=
  fun a b => inferInstanceAs (Decidable (a.mean_batch_size ≤ b.mean_batch_size))

instance : IsTotal Row batchLE :=
  ⟨fun a b => le_total a.mean_batch_size b.mean_batch_size⟩

instance : IsTrans Row batchLE :=
  ⟨fun _ _ _ h1 h2 => le_trans h1 h2⟩

/-- `df.sort_values("mean_batch_size")`. -/
def sortByBatch (l : List Row) : List Row := List.insertionSort batchLE l

/-- The resource-bundle boolean mask of `estimate_performance` /
`increase_batch_size`:
`(gpu_type == config.gpu_type) & (num_cpus_per_replica == config.num_cpus)
 & (cloud == config.cloud)`. -/
def bundleMatch (r : Row) (config : NodeConfig) : Bool :=
  r.gpu_type == config.gpu_type
    && r.num_cpus_per_replica == config.num_cpus
    && r.cloud == config.cloud

/-- One filtering step of `prune_profile`: row `r` of the running table is kept
against table row `j` when
`r.throughput >= j.throughput | r.cost <= j.cost | r.p99_latency <= j.p99_latency`
(profiler.py lines 294-296). -/
def keepAgainst (r j : Row) : Bool :=
  decide (j.mean_throughput_qps ≤ r.mean_throughput_qps)
    || decide (r.cost ≤ j.cost)
    || decide (r.p99_latency ≤ j.p99_latency)

/-- `NodeProfile.prune_profile` (lines 284-297): starting from a copy of the
table, iterate over the rows of the *original* table and keep in the running
copy only the rows satisfying `keepAgainst` against the current original row. -/
def prune_profile (profile : List Row) : List Row :=
  profile.foldl (fun pruned j => pruned.filter (fun r => keepAgainst r j)) profile

/-- Position of the lub row: pandas computes the mask `mean_batch_size >= x`
and takes `idxmin` of the masked batch sizes; on the batch-sorted table this is
the first position whose batch size is `≥ x`. -/
def lubPos (s : List Row) (x : ℚ) : Option Nat :=
  firstIdx (fun r => x ≤ r.mean_batch_size) s

/-- Position of the glb row: pandas computes the mask `mean_batch_size <= x`
and takes `idxmax` of the masked batch sizes, which is the first occurrence of
the maximal batch size among rows with batch size `≤ x`. -/
def glbPos (s : List Row) (x : ℚ) : Option Nat :=
  match maxQ ((s.filter (fun r => r.mean_batch_size ≤ x)).map Row.mean_batch_size) with
  | none => none
  | some m => firstIdx (fun r => r.mean_batch_size = m) s

/-- The `(p99_latency, throughput, cost)` triple returned by
`estimate_performance`. -/
structure Perf where
  p99_latency : ℚ
  throughput : ℚ
  cost : ℚ
deriving DecidableEq, Repr, Inhabited

/-- `NodeProfile.estimate_performance` (lines 215-282).  Returns the estimated
triple together with the list of warnings printed during the call.  The
`Exception` for an unmatched resource bundle and the `AssertionError` of the
`np.all(np.diff _ > 0)` checks become `Except.error` values. -/
def estimate_performance (profile : List Row) (config : NodeConfig) :
    Except String (Perf × List String) :=
  let s := sortByBatch (profile.filter (fun r => bundleMatch r config))
  if s.isEmpty then
    Except.error "No profiles for node under provided configuration"
  else
    match glbPos s config.batch_size, lubPos s config.batch_size with
    | none, none =>
      -- unreachable for a non-empty table; Python would fail
      -- `assert idx_lub is not None`
      Except.error "AssertionError"
    | none, some lp =>
      match s.get? lp with
      | none => Except.error "AssertionError"
      | some row =>
        Except.ok
          (⟨row.p99_latency,
            row.mean_throughput_qps * (config.num_replicas : ℚ),
            row.cost * (config.num_replicas : ℚ)⟩, [])
    | some gp, none =>
      match s.get? gp with
      | none => Except.error "AssertionError"
      | some row =>
        Except.ok
          (⟨row.p99_latency,
            row.mean_throughput_qps * (config.num_replicas : ℚ),
            row.cost * (config.num_replicas : ℚ)⟩,
           ["Warning: No profiles found with higher batch size"])
    | some gp, some lp =>
      let relevant := (s.drop gp).take (lp - gp + 1)
      if strictIncr (relevant.map Row.mean_throughput_qps) then
        if strictIncr (relevant.map Row.p99_latency) then
          match relevant with
          | [] => Except.error "AssertionError"
          | r0 :: _ =>
            let thru :=
              npInterp config.batch_size
                  (relevant.map (fun r => (r.mean_batch_size, r.mean_throughput_qps)))
                * (config.num_replicas : ℚ)
            let lat :=
              npInterp config.batch_size
                (relevant.map (fun r => (r.mean_batch_size, r.p99_latency)))
            Except.ok (⟨lat, thru, r0.cost * (config.num_replicas : ℚ)⟩, [])
        else Except.error "AssertionError"
      else Except.error "AssertionError"

/-- `NodeProfile.increase_batch_size` (lines 189-213): among bundle rows with
`mean_batch_size >= math.floor(config.batch_size) + 1` take the row of minimal
batch size and return a copy of the config with that batch size; `none` models
the Python `False` result. -/
def increase_batch_size (profile : List Row) (config : NodeConfig) :
    Option NodeConfig :=
  let s := sortByBatch (profile.filter (fun r => bundleMatch r config))
  let thresh : ℚ := (Rat.floor config.batch_size : ℚ) + 1
  match minQ ((s.filter (fun r => thresh ≤ r.mean_batch_size)).map Row.mean_batch_size) with
  | none => none
  | some v => some { config with batch_size := v }

/-- `is_valid_pipeline_config` (lines 482-494).  The Python function calls
`next` on the iterator of clouds before any comparison, so an empty
configuration map raises `StopIteration`; this is modelled by `none`. -/
def is_valid_pipeline_config (node_configs : List NodeConfig) : Option Bool :=
  match node_configs.map NodeConfig.cloud with
  | [] => none
  | first :: rest => some (rest.all (fun c => first == c))

/-- `LogicalDAG.SOURCE`. -/
def SOURCE : String := "SOURCE"

/-- `LogicalDAG.SINK`. -/
def SINK : String := "SINK"

/-- `LogicalDAG.enumerate_paths` (lines 41-62): depth-first search that appends
the current node to the path and recurses into all children, emitting the path
when it reaches `SINK`.  The adjacency list is a total function and `fuel`
bounds the recursion depth (the Python recursion is unbounded; on an acyclic
graph every path is found once the fuel exceeds every path length, which the
membership characterization below makes precise). -/
def enumerate_paths (adj : String → List String) :
    Nat → List String → String → List (List String)
  | 0, _, _ => []
  | fuel + 1, current_path, node =>
    let current' := current_path ++ [node]
    if node = SINK then [current']
    else (adj node).flatMap (fun next => enumerate_paths adj fuel current' next)

/-- `p` is a path of `adj` from `node` to `SINK`, mirroring exactly the routes
the depth-first search of `enumerate_paths` can take. -/
inductive ReachesSink (adj : String → List String) : String → List String → Prop
  | sink : ReachesSink adj SINK [SINK]
  | step {n next : String} {rest : List String} :
      n ≠ SINK → next ∈ adj n → ReachesSink adj next rest →
      ReachesSink adj n (n :: rest)

/-- The `SOURCE`/`SINK` skip test of the pipeline estimation loop
(lines 420-421). -/
def isSentinel (n : String) : Bool := n == SOURCE || n == SINK

/-- The per-path loop state of `estimate_pipeline_performance_for_config`:
`path_latency`, the running `(bottleneck_thruput, bottleneck_node)` pair
(`none` while both are Python `None`), and `total_cost`. -/
structure PathState where
  path_latency : ℚ
  bottleneck : Option (ℚ × String)
  total_cost : ℚ
deriving DecidableEq, Repr

/-- Bottleneck update of lines 427-433: initialize on the first stage, then
replace whenever the current bottleneck throughput is strictly greater than
the new scaled throughput. -/
def updateBottleneck (b : Option (ℚ × String)) (scaled : ℚ) (node : String) :
    Option (ℚ × String) :=
  match b with
  | none => some (scaled, node)
  | some (bt, bn) => if bt > scaled then some (scaled, node) else some (bt, bn)

/-- The call `single_node_profiles[node].estimate_performance(node_configs[node])`
as used by the pipeline estimator; printed warnings do not affect control flow
and are dropped. -/
def estPerf (profiles : String → List Row) (configs : String → NodeConfig)
    (n : String) : Except String Perf :=
  match estimate_performance (profiles n) (configs n) with
  | Except.error e => Except.error e
  | Except.ok (p, _) => Except.ok p

/-- Inner loop of `estimate_pipeline_performance_for_config` over the nodes of
one path (lines 416-435): skip sentinels, estimate each stage, accumulate path
latency and total cost, and update the bottleneck with
`scaled_thru = thru / scale_factors[node]`. -/
def runNodes (scale : String → ℚ) (profiles : String → List Row)
    (configs : String → NodeConfig) :
    List String → PathState → Except String PathState
  | [], st => Except.ok st
  | n :: ns, st =>
    if isSentinel n then runNodes scale profiles configs ns st
    else
      match estPerf profiles configs n with
      | Except.error e => Except.error e
      | Except.ok p =>
        let scaled := p.throughput / scale n
        runNodes scale profiles configs ns
          ⟨st.path_latency + p.p99_latency,
           updateBottleneck st.bottleneck scaled n,
           st.total_cost + p.cost⟩

/-- The cross-path accumulator of `estimate_pipeline_performance_for_config`:
bottleneck pair, total cost, and `max_latency` (`none` while Python `None`). -/
structure PipeAcc where
  bottleneck : Option (ℚ × String)
  total_cost : ℚ
  max_latency : Option ℚ
deriving DecidableEq, Repr

/-- `max_latency` update at the end of each path (lines 437-439). -/
def maxStep (o : Option ℚ) (x : ℚ) : Option ℚ :=
  match o with
  | none => some x
  | some m => some (max m x)

/-- Outer loop of `estimate_pipeline_performance_for_config` over all paths:
each path starts with `path_latency = 0` and threads the bottleneck pair and
total cost through; `max_latency` is updated once per path. -/
def runPaths (scale : String → ℚ) (profiles : String → List Row)
    (configs : String → NodeConfig) :
    List (List String) → PipeAcc → Except String PipeAcc
  | [], acc => Except.ok acc
  | p :: ps, acc =>
    match runNodes scale profiles configs p ⟨0, acc.bottleneck, acc.total_cost⟩ with
    | Except.error e => Except.error e
    | Except.ok st =>
      runPaths scale profiles configs ps
        ⟨st.bottleneck, st.total_cost, maxStep acc.max_latency st.path_latency⟩

/-- The result dictionary of `estimate_pipeline_performance_for_config`. -/
structure PipelineEstimate where
  latency : Option ℚ
  throughput : Option ℚ
  cost : ℚ
deriving DecidableEq, Repr

/-- `estimate_pipeline_performance_for_config` (lines 386-444), paired with the
bottleneck node name.  The `assert len(paths) >= 1` inside `enumerate_paths`
is modelled as an error on an empty path list. -/
def estimate_pipeline_performance_for_config (adj : String → List String)
    (fuel : Nat) (scale : String → ℚ) (configs : String → NodeConfig)
    (profiles : String → List Row) :
    Except String (PipelineEstimate × Option String) :=
  let paths := enumerate_paths adj fuel [] SOURCE
  if paths.isEmpty then Except.error "AssertionError"
  else
    match runPaths scale profiles configs paths ⟨none, 0, none⟩ with
    | Except.error e => Except.error e
    | Except.ok acc =>
      Except.ok
        (⟨acc.max_latency, acc.bottleneck.map Prod.fst, acc.total_cost⟩,
         acc.bottleneck.map Prod.snd)

/-! ## Basic lemmas about the pruning loop -/

/-- Folding a per-row filter over `js` starting from `init` filters `init` by
the conjunction of all the per-row predicates. -/
theorem foldl_filter_eq_filter_all (p : Row → Row → Bool) :
    ∀ (js init : List Row),
      js.foldl (fun acc j => acc.filter (fun r => p r j)) init
        = init.filter (fun r => js.all (p r)) := by
  intro js
  induction js with
  | nil => intro init; simp
  | cons j js ih =>
    intro init
    rw [List.foldl_cons, ih, List.filter_filter]
    exact List.filter_congr (fun r _ => by rw [List.all_cons, Bool.and_comm])

/-- `prune_profile` keeps exactly the rows that satisfy `keepAgainst` against
every row of the original table. -/
theorem prune_profile_eq_filter (t : List Row) :
    prune_profile t = t.filter (fun r => t.all (keepAgainst r)) :=
  foldl_filter_eq_filter_all keepAgainst t t

/-- Row `j` is strictly better than `r` on all three of throughput, cost and
latency. -/
def strictlyDominates (j r : Row) : Bool :=
  decide (r.mean_throughput_qps < j.mean_throughput_qps)
    && decide (j.cost < r.cost)
    && decide (j.p99_latency < r.p99_latency)

theorem keepAgainst_eq_not_strictlyDominates (r j : Row) :
    keepAgainst r j = !(strictlyDominates j r) := by
  by_cases h1 : j.mean_throughput_qps ≤ r.mean_throughput_qps <;>
    by_cases h2 : r.cost ≤ j.cost <;>
      by_cases h3 : r.p99_latency ≤ j.p99_latency <;>
        simp [keepAgainst, strictlyDominates, h1, h2, h3]
  exact ⟨⟨not_le.mp h1, not_le.mp h2⟩, not_le.mp h3⟩

/-- C1 (amended): `prune_profile` retains a row `r` if and only if no row of
the table is strictly better than `r` on all three of throughput, cost and
latency simultaneously; equivalently, `r` is dropped exactly when some row `j`
has `j.throughput > r.throughput`, `j.cost < r.cost` and
`j.latency < r.latency`, the comparison ranging over the whole table. -/
theorem c1_prune_retains_iff_not_strictly_dominated (t : List Row) :
    prune_profile t
      = t.filter (fun r => !(t.any (fun j => strictlyDominates j r))) := by
  rw [prune_profile_eq_filter]
  refine List.filter_congr (fun r _ => ?_)
  rw [Bool.eq_iff_iff]
  simp only [List.all_eq_true, Bool.not_eq_true', List.any_eq_false]
  constructor
  · intro h j hj
    have hkeep := h j hj
    rw [keepAgainst_eq_not_strictlyDominates] at hkeep
    simpa using hkeep
  · intro h j hj
    rw [keepAgainst_eq_not_strictlyDominates]
    simpa using h j hj

/-- Row retained by `prune_profile` although another row of the table weakly
dominates it (ties on throughput): the row used by the C1 counterexample. -/
def rowKeep : Row := ⟨"g", 1, "aws", 1, 10, 5, 5⟩

/-- The weakly dominating companion row of the C1 counterexample. -/
def rowDom : Row := ⟨"g", 1, "aws", 2, 10, 3, 3⟩

/-- C1 (counterexample): the table `[rowKeep, rowDom]` retains `rowKeep`
unchanged although the other row `rowDom` has throughput `≥`, cost `≤` and
latency `≤` those of `rowKeep`, so the claimed drop rule (drop on weak
domination by another row) does not describe `prune_profile`. -/
theorem c1_prune_counterexample :
    prune_profile [rowKeep, rowDom] = [rowKeep, rowDom]
    ∧ rowDom ≠ rowKeep
    ∧ rowKeep.mean_throughput_qps ≤ rowDom.mean_throughput_qps
    ∧ rowDom.cost ≤ rowKeep.cost
    ∧ rowDom.p99_latency ≤ rowKeep.p99_latency := by
  refine ⟨rfl, by decide, by decide, by decide, by decide⟩

/-- C8: pruning is idempotent: applying `prune_profile` to an already pruned
table returns it unchanged. -/
theorem c8_prune_idempotent (t : List Row) :
    prune_profile (prune_profile t) = prune_profile t := by
  rw [prune_profile_eq_filter t, prune_profile_eq_filter]
  refine List.filter_eq_self.mpr (fun r hr => ?_)
  rw [List.all_eq_true]
  intro j hj
  exact List.all_eq_true.mp (List.mem_filter.mp hr).2 j (List.mem_filter.mp hj).1

/-! ## C10: validity check on an empty configuration map -/

/-- C10: on an empty configuration map `is_valid_pipeline_config` does not
return a boolean (the Python `next` on the cloud iterator raises
`StopIteration`, modelled by `none`); on any non-empty map it returns a
boolean, so the True/False contract only holds for maps with at least one
stage config. -/
theorem c10_is_valid_empty_raises :
    is_valid_pipeline_config [] = none
    ∧ ∀ cfgs : List NodeConfig, cfgs ≠ [] →
        ∃ b, is_valid_pipeline_config cfgs = some b := by
  refine ⟨rfl, fun cfgs h => ?_⟩
  match cfgs with
  | c :: rest => exact ⟨_, rfl⟩

theorem c10_is_valid_empty_raises_witness :
    ∃ b, is_valid_pipeline_config [⟨"n", 1, "none", 1, 1, "aws"⟩] = some b :=
  c10_is_valid_empty_raises.2 [⟨"n", 1, "none", 1, 1, "aws"⟩] (by decide)

/-! ## C9: the no-matching-profile error -/

/-- C9 (amended): `estimate_performance` returns the
"No profiles for node under provided configuration" error exactly when zero
rows of the profile match the config's resource bundle.  (With matching rows
the call can still fail, but only with the distinct `AssertionError` of the
monotonicity assertions; see the C9 counterexample.) -/
theorem c9_no_profile_error_iff (t : List Row) (c : NodeConfig) :
    (estimate_performance t c
        = Except.error "No profiles for node under provided configuration")
      ↔ t.filter (fun r => bundleMatch r c) = [] := by
  have hs : (sortByBatch (t.filter (fun r => bundleMatch r c))).isEmpty = true
      ↔ t.filter (fun r => bundleMatch r c) = [] := by
    rw [List.isEmpty_iff]
    constructor
    · intro h
      have hlen := congrArg List.length h
      rw [sortByBatch, List.length_insertionSort] at hlen
      exact List.length_eq_zero.mp hlen
    · intro h
      rw [sortByBatch, h]
      rfl
  simp only [estimate_performance]
  split
  case isTrue hemp => simpa using hs.mp hemp
  case isFalse hemp =>
    have hne : ¬ t.filter (fun r => bundleMatch r c) = [] :=
      fun h => hemp (hs.mpr h)
    refine iff_of_false (fun hcontra => ?_) hne
    revert hcontra
    split <;> (try split) <;> (try split) <;> (try split) <;> simp

/-- First row of the C9 counterexample profile (equal throughputs at batch
sizes 10 and 20 in the same bundle). -/
def rowC9a : Row := ⟨"v100", 2, "gcp", 10, 7, 1, 4⟩

/-- Second row of the C9 counterexample profile. -/
def rowC9b : Row := ⟨"v100", 2, "gcp", 20, 7, 2, 4⟩

/-- Config of the C9 counterexample, batch size strictly between the two
profiled rows of its (matching) resource bundle. -/
def cfgC9 : NodeConfig := ⟨"m", 2, "v100", 15, 1, "gcp"⟩

/-- C9 (counterexample): `estimate_performance` raises an error although both
profile rows match the config's resource bundle (the monotonicity assertion
fails because the two rows have equal throughput), so "raises an error if and
only if zero profiled rows match the bundle" is false on the code. -/
theorem c9_counterexample :
    estimate_performance [rowC9a, rowC9b] cfgC9 = Except.error "AssertionError"
    ∧ [rowC9a, rowC9b].filter (fun r => bundleMatch r cfgC9) ≠ [] := by decide

/-! ## C5 and C6 counterexamples -/

/-- The single profiled row of the C5 counterexample (batch size 4). -/
def rowC5 : Row := ⟨"p100", 1, "gcp", 4, 10, 2, 3⟩

/-- Config of the C5 counterexample, batch size 2 below the profiled
minimum 4. -/
def cfgC5 : NodeConfig := ⟨"p", 1, "p100", 2, 1, "gcp"⟩

/-- C5 (counterexample): for a config whose batch size is below the smallest
profiled batch size of its bundle, `estimate_performance` does return the
minimum row's raw values, but with an *empty* warning list: no "no lower
bound" warning condition is signalled (the only warning in the code is for the
above-maximum case). -/
theorem c5_counterexample :
    estimate_performance [rowC5] cfgC5 = Except.ok (⟨2, 10, 3⟩, [])
    ∧ [rowC5].filter
        (fun r => bundleMatch r cfgC5
          && decide (r.mean_batch_size ≤ cfgC5.batch_size)) = [] := by decide

/-- First row of the C6 counterexample (throughput 10 at batch size 1). -/
def rowC6a : Row := ⟨"k80", 1, "aws", 1, 10, 1, 2⟩

/-- Second row of the C6 counterexample (same throughput 10 at batch size 2:
non-monotonic profile data in the sense of a non-strict increase). -/
def rowC6b : Row := ⟨"k80", 1, "aws", 2, 10, 2, 2⟩

/-- Config of the C6 counterexample, batch size 3/2 strictly between the two
profiled batch sizes. -/
def cfgC6 : NodeConfig := ⟨"q", 1, "k80", 3/2, 1, "aws"⟩

/-- C6 (counterexample): both rows match the config's bundle and their
throughputs are equal (hence not strictly increasing in batch size), and
`estimate_performance` raises an assertion error instead of returning an
estimate — monotonicity *is* enforced by assertion in the interpolation
branch. -/
theorem c6_counterexample :
    [rowC6a, rowC6b].filter (fun r => bundleMatch r cfgC6) = [rowC6a, rowC6b]
    ∧ rowC6a.mean_throughput_qps = rowC6b.mean_throughput_qps
    ∧ estimate_performance [rowC6a, rowC6b] cfgC6
        = Except.error "AssertionError" := by decide

/-! ## Lemmas about minQ, maxQ and firstIdx -/

theorem foldl_min_le_init (l : List ℚ) (a : ℚ) : l.foldl min a ≤ a := by
  induction l generalizing a with
  | nil => simp
  | cons x xs ih => exact le_trans (ih (min a x)) (min_le_left a x)

theorem foldl_min_le_mem (l : List ℚ) (a : ℚ) : ∀ x ∈ l, l.foldl min a ≤ x := by
  induction l generalizing a with
  | nil => simp
  | cons x xs ih =>
    intro y hy
    rcases List.mem_cons.mp hy with rfl | hy'
    · exact le_trans (foldl_min_le_init xs (min a y)) (min_le_right a y)
    · exact ih (min a x) y hy'

theorem foldl_min_mem (l : List ℚ) (a : ℚ) : l.foldl min a = a ∨ l.foldl min a ∈ l := by
  induction l generalizing a with
  | nil => simp
  | cons x xs ih =>
    rcases ih (min a x) with h | h
    · rcases min_choice a x with hm | hm
      · exact Or.inl (by rw [List.foldl_cons, h, hm])
      · exact Or.inr (by rw [List.foldl_cons, h, hm]; exact List.mem_cons_self x xs)
    · exact Or.inr (List.mem_cons_of_mem x h)

theorem minQ_none_iff (l : List ℚ) : minQ l = none ↔ l = [] := by
  cases l <;> simp [minQ]

theorem minQ_mem {l : List ℚ} {m : ℚ} (h : minQ l = some m) : m ∈ l := by
  cases l with
  | nil => simp [minQ] at h
  | cons x xs =>
    simp only [minQ, Option.some.injEq] at h
    rcases foldl_min_mem xs x with h' | h'
    · rw [← h, h']; exact List.mem_cons_self x xs
    · rw [← h]; exact List.mem_cons_of_mem x h'

theorem minQ_le {l : List ℚ} {m : ℚ} (h : minQ l = some m) : ∀ x ∈ l, m ≤ x := by
  cases l with
  | nil => simp [minQ] at h
  | cons x xs =>
    simp only [minQ, Option.some.injEq] at h
    intro y hy
    rcases List.mem_cons.mp hy with rfl | hy'
    · exact h ▸ foldl_min_le_init xs y
    · exact h ▸ foldl_min_le_mem xs x y hy'

theorem foldl_max_init_le (l : List ℚ) (a : ℚ) : a ≤ l.foldl max a := by
  induction l generalizing a with
  | nil => simp
  | cons x xs ih => exact le_trans (le_max_left a x) (ih (max a x))

theorem foldl_max_mem_le (l : List ℚ) (a : ℚ) : ∀ x ∈ l, x ≤ l.foldl max a := by
  induction l generalizing a with
  | nil => simp
  | cons x xs ih =>
    intro y hy
    rcases List.mem_cons.mp hy with rfl | hy'
    · exact le_trans (le_max_right a y) (foldl_max_init_le xs (max a y))
    · exact ih (max a x) y hy'

theorem foldl_max_mem (l : List ℚ) (a : ℚ) : l.foldl max a = a ∨ l.foldl max a ∈ l := by
  induction l generalizing a with
  | nil => simp
  | cons x xs ih =>
    rcases ih (max a x) with h | h
    · rcases max_choice a x with hm | hm
      · exact Or.inl (by rw [List.foldl_cons, h, hm])
      · exact Or.inr (by rw [List.foldl_cons, h, hm]; exact List.mem_cons_self x xs)
    · exact Or.inr (List.mem_cons_of_mem x h)

theorem maxQ_none_iff (l : List ℚ) : maxQ l = none ↔ l = [] := by
  cases l <;> simp [maxQ]

theorem maxQ_mem {l : List ℚ} {m : ℚ} (h : maxQ l = some m) : m ∈ l := by
  cases l with
  | nil => simp [maxQ] at h
  | cons x xs =>
    simp only [maxQ, Option.some.injEq] at h
    rcases foldl_max_mem xs x with h' | h'
    · rw [← h, h']; exact List.mem_cons_self x xs
    · rw [← h]; exact List.mem_cons_of_mem x h'

theorem le_maxQ {l : List ℚ} {m : ℚ} (h : maxQ l = some m) : ∀ x ∈ l, x ≤ m := by
  cases l with
  | nil => simp [maxQ] at h
  | cons x xs =>
    simp only [maxQ, Option.some.injEq] at h
    intro y hy
    rcases List.mem_cons.mp hy with rfl | hy'
    · exact h ▸ foldl_max_init_le xs y
    · exact h ▸ foldl_max_mem_le xs x y hy'

theorem firstIdx_none_iff (p : α → Prop) [DecidablePred p] :
    ∀ {l : List α}, firstIdx p l = none ↔ ∀ x ∈ l, ¬ p x := by
  intro l
  induction l with
  | nil => simp [firstIdx]
  | cons r rs ih =>
    by_cases hr : p r <;> simp [firstIdx, hr, ih]

theorem firstIdx_some (p : α → Prop) [DecidablePred p] :
    ∀ {l : List α} {i : Nat}, firstIdx p l = some i →
      ∃ hlen : i < l.length,
        p (l.get ⟨i, hlen⟩) ∧ ∀ j, j < i → ∀ hj : j < l.length, ¬ p (l.get ⟨j, hj⟩) := by
  intro l
  induction l with
  | nil => intro i h; simp [firstIdx] at h
  | cons r rs ih =>
    intro i h
    by_cases hr : p r
    · simp only [firstIdx, if_pos hr, Option.some.injEq] at h
      subst h
      exact ⟨Nat.succ_pos _, hr, fun j hj _ => absurd hj (Nat.not_lt_zero j)⟩
    · simp only [firstIdx, if_neg hr, Option.map_eq_some'] at h
      obtain ⟨i', hi', rfl⟩ := h
      obtain ⟨hlen, hp, hmin⟩ := ih hi'
      refine ⟨Nat.succ_lt_succ hlen, hp, fun j hj hjlen => ?_⟩
      match j with
      | 0 => exact hr
      | j' + 1 =>
        exact hmin j' (Nat.lt_of_succ_lt_succ hj) (Nat.lt_of_succ_lt_succ hjlen)

theorem firstIdx_isSome_of_mem (p : α → Prop) [DecidablePred p]
    {l : List α} {x : α} (hx : x ∈ l) (hp : p x) : ∃ i, firstIdx p l = some i := by
  rcases h : firstIdx p l with _ | i
  · exact absurd hp (firstIdx_none_iff p |>.mp h x hx)
  · exact ⟨i, rfl⟩

/-! ## C4: increase_batch_size -/

/-- The single profiled row of the C4 counterexample (batch size 5). -/
def rowC4 : Row := ⟨"none", 1, "aws", 5, 10, 1, 1⟩

/-- Config of the C4 counterexample (batch size 4, so
`floor(batch_size) + 1 = 5`). -/
def cfgC4 : NodeConfig := ⟨"c", 1, "none", 4, 1, "aws"⟩

/-- C4 (counterexample): with one profiled batch size 5 and config batch
size 4, no profiled batch size is *strictly* greater than
`floor(batch_size) + 1 = 5`, so the claim predicts the failure signal; the
code instead returns the config with batch size 5 because it selects with
`>=`, not `>`. -/
theorem c4_counterexample :
    increase_batch_size [rowC4] cfgC4 = some { cfgC4 with batch_size := 5 }
    ∧ [rowC4].filter
        (fun r => bundleMatch r cfgC4
          && decide ((Rat.floor cfgC4.batch_size : ℚ) + 1 < r.mean_batch_size))
        = [] := by decide

/-- C4 (amended): `increase_batch_size` returns `none` (the Python `False`
failure signal, not an exception) iff no profiled row of the config's resource
bundle has batch size `≥ floor(config.batch_size) + 1`; otherwise it returns a
copy of the config whose batch size is the smallest such profiled batch size,
all other fields unchanged. -/
theorem c4_increase_batch_size_spec (t : List Row) (c : NodeConfig) :
    (increase_batch_size t c = none
      ↔ t.filter (fun r => bundleMatch r c
          && decide ((Rat.floor c.batch_size : ℚ) + 1 ≤ r.mean_batch_size)) = [])
    ∧ ∀ c', increase_batch_size t c = some c' →
        c'.name = c.name ∧ c'.num_cpus = c.num_cpus ∧ c'.gpu_type = c.gpu_type
        ∧ c'.num_replicas = c.num_replicas ∧ c'.cloud = c.cloud
        ∧ (∃ r, r ∈ t ∧ bundleMatch r c = true
            ∧ (Rat.floor c.batch_size : ℚ) + 1 ≤ r.mean_batch_size
            ∧ r.mean_batch_size = c'.batch_size)
        ∧ (∀ r, r ∈ t → bundleMatch r c = true →
            (Rat.floor c.batch_size : ℚ) + 1 ≤ r.mean_batch_size →
            c'.batch_size ≤ r.mean_batch_size) := by
  have heq : increase_batch_size t c =
      match minQ (((sortByBatch (t.filter (fun r => bundleMatch r c))).filter
          (fun r => decide ((Rat.floor c.batch_size : ℚ) + 1 ≤ r.mean_batch_size))).map
            Row.mean_batch_size) with
      | none => none
      | some v => some { c with batch_size := v } := rfl
  have hperm : List.Perm
      ((sortByBatch (t.filter (fun r => bundleMatch r c))).filter
          (fun r => decide ((Rat.floor c.batch_size : ℚ) + 1 ≤ r.mean_batch_size)))
      (t.filter (fun r => bundleMatch r c
          && decide ((Rat.floor c.batch_size : ℚ) + 1 ≤ r.mean_batch_size))) := by
    have h1 := (List.perm_insertionSort batchLE (t.filter (fun r => bundleMatch r c))).filter
      (fun r => decide ((Rat.floor c.batch_size : ℚ) + 1 ≤ r.mean_batch_size))
    rw [List.filter_filter] at h1
    have h2 : (t.filter (fun r => decide ((Rat.floor c.batch_size : ℚ) + 1
          ≤ r.mean_batch_size) && bundleMatch r c))
        = t.filter (fun r => bundleMatch r c
          && decide ((Rat.floor c.batch_size : ℚ) + 1 ≤ r.mean_batch_size)) :=
      List.filter_congr (fun r _ => by rw [Bool.and_comm])
    exact h2 ▸ h1
  rw [heq]
  rcases hmin : minQ (((sortByBatch (t.filter (fun r => bundleMatch r c))).filter
      (fun r => decide ((Rat.floor c.batch_size : ℚ) + 1 ≤ r.mean_batch_size))).map
        Row.mean_batch_size) with _ | v <;> simp only [hmin]
  · refine ⟨iff_of_true trivial ?_, fun c' hc' => absurd hc' (by simp)⟩
    rw [minQ_none_iff, List.map_eq_nil_iff] at hmin
    exact List.Perm.eq_nil (hmin ▸ hperm.symm)
  · constructor
    · refine iff_of_false (by simp) ?_
      intro hnil
      have hA := List.Perm.eq_nil (hnil ▸ hperm)
      rw [hA] at hmin
      simp [minQ] at hmin
    · intro c' hc'
      simp only [Option.some.injEq] at hc'
      subst hc'
      refine ⟨rfl, rfl, rfl, rfl, rfl, ?_, ?_⟩
      · have hv := minQ_mem hmin
        rw [List.mem_map] at hv
        obtain ⟨r, hrmem, hrbatch⟩ := hv
        have hr' := List.mem_filter.mp (hperm.mem_iff.mp hrmem)
        have hr2 := hr'.2
        simp only [Bool.and_eq_true, decide_eq_true_eq] at hr2
        exact ⟨r, hr'.1, hr2.1, hr2.2, hrbatch⟩
      · intro r hrt hrb hrth
        have hrmem : r ∈ t.filter (fun r => bundleMatch r c
            && decide ((Rat.floor c.batch_size : ℚ) + 1 ≤ r.mean_batch_size)) :=
          List.mem_filter.mpr ⟨hrt, by simp [hrb, hrth]⟩
        exact minQ_le hmin r.mean_batch_size
          (List.mem_map_of_mem Row.mean_batch_size (hperm.mem_iff.mpr hrmem))

theorem c4_increase_batch_size_spec_witness :
    ∃ r, r ∈ [rowC4] ∧ bundleMatch r cfgC4 = true
      ∧ (Rat.floor cfgC4.batch_size : ℚ) + 1 ≤ r.mean_batch_size
      ∧ r.mean_batch_size = ({ cfgC4 with batch_size := 5 } : NodeConfig).batch_size :=
  (((c4_increase_batch_size_spec [rowC4] cfgC4).2
      { cfgC4 with batch_size := 5 } (by decide)).2.2.2.2.2).1

/-! ## C7: replica scaling -/

theorem bundleMatch_replicas (r : Row) (c : NodeConfig) (k : Nat) :
    bundleMatch r { c with num_replicas := k } = bundleMatch r c := rfl

theorem batch_size_replicas (c : NodeConfig) (k : Nat) :
    ({ c with num_replicas := k } : NodeConfig).batch_size = c.batch_size := rfl

theorem num_replicas_replicas (c : NodeConfig) (k : Nat) :
    ({ c with num_replicas := k } : NodeConfig).num_replicas = k := rfl

/-- C7: whenever `estimate_performance` succeeds, doubling the config's
replica count (all other fields unchanged) doubles the returned throughput and
cost and leaves the returned latency (and the warnings) unchanged. -/
theorem c7_replica_doubling (t : List Row) (c : NodeConfig) (p : Perf)
    (w : List String) (h : estimate_performance t c = Except.ok (p, w)) :
    estimate_performance t { c with num_replicas := 2 * c.num_replicas }
      = Except.ok (⟨p.p99_latency, 2 * p.throughput, 2 * p.cost⟩, w) := by
  have hcast : ((2 * c.num_replicas : ℕ) : ℚ) = 2 * (c.num_replicas : ℚ) := by
    push_cast
    ring
  simp only [estimate_performance, bundleMatch_replicas, batch_size_replicas,
    num_replicas_replicas] at h ⊢
  split at h <;> rename_i hemp
  · exact absurd h (by simp)
  · rw [if_neg hemp]
    split at h <;> rename_i hglb hlub
    · exact absurd h (by simp)
    · split at h <;> rename_i hget
      · exact absurd h (by simp)
      · simp only [Except.ok.injEq, Prod.mk.injEq] at h
        obtain ⟨hp, hw⟩ := h
        subst hp
        subst hw
        rw [hcast]
        ring_nf
    · split at h <;> rename_i hget
      · exact absurd h (by simp)
      · simp only [Except.ok.injEq, Prod.mk.injEq] at h
        obtain ⟨hp, hw⟩ := h
        subst hp
        subst hw
        rw [hcast]
        ring_nf
    · split at h <;> rename_i hthru
      · split at h <;> rename_i hlat
        · split at h <;> rename_i hrel
          · exact absurd h (by simp)
          · rw [if_pos hthru, if_pos hlat]
            simp only [Except.ok.injEq, Prod.mk.injEq] at h
            obtain ⟨hp, hw⟩ := h
            subst hp
            subst hw
            simp only [hrel]
            rw [hcast]
            ring_nf
        · exact absurd h (by simp)
      · exact absurd h (by simp)

/-- Row used by the C7 witness. -/
def rowC7 : Row := ⟨"v100", 4, "aws", 8, 40, 3, 6⟩

theorem c7_replica_doubling_witness :
    estimate_performance [rowC7] { (⟨"w", 4, "v100", 8, 3, "aws"⟩ : NodeConfig) with
        num_replicas := 2 * (⟨"w", 4, "v100", 8, 3, "aws"⟩ : NodeConfig).num_replicas }
      = Except.ok (⟨3, 2 * 120, 2 * 18⟩, []) :=
  c7_replica_doubling [rowC7] ⟨"w", 4, "v100", 8, 3, "aws"⟩ ⟨3, 120, 18⟩ [] (by decide)

/-! ## Selection lemmas: locating the glb and lub rows in the sorted table -/

theorem sorted_get_mono {s : List Row} (hsort : List.Sorted batchLE s)
    {i j : Nat} (hij : i ≤ j) (hj : j < s.length) :
    (s.get ⟨i, lt_of_le_of_lt hij hj⟩).mean_batch_size
      ≤ (s.get ⟨j, hj⟩).mean_batch_size := by
  rcases Nat.eq_or_lt_of_le hij with rfl | hlt
  · exact le_refl _
  · exact List.pairwise_iff_get.mp hsort ⟨i, lt_of_le_of_lt hij hj⟩ ⟨j, hj⟩ hlt

theorem nodup_batch_get_inj {s : List Row}
    (hnodup : (s.map Row.mean_batch_size).Nodup)
    {i j : Nat} (hi : i < s.length) (hj : j < s.length)
    (h : (s.get ⟨i, hi⟩).mean_batch_size = (s.get ⟨j, hj⟩).mean_batch_size) :
    i = j := by
  have hi' : i < (s.map Row.mean_batch_size).length := by simpa using hi
  have hj' : j < (s.map Row.mean_batch_size).length := by simpa using hj
  have hmap : (s.map Row.mean_batch_size).get ⟨i, hi'⟩
      = (s.map Row.mean_batch_size).get ⟨j, hj'⟩ := by
    simpa using h
  have := (List.Nodup.get_inj_iff hnodup).mp hmap
  simpa using this

theorem drop_take_two {s : List Row} {i : Nat} (h : i + 1 < s.length) :
    (s.drop i).take 2 = [s.get ⟨i, Nat.lt_of_succ_lt h⟩, s.get ⟨i + 1, h⟩] := by
  rw [List.drop_eq_getElem_cons (Nat.lt_of_succ_lt h), List.drop_eq_getElem_cons h]
  rfl

theorem drop_take_one {s : List Row} {i : Nat} (h : i < s.length) :
    (s.drop i).take 1 = [s.get ⟨i, h⟩] := by
  rw [List.drop_eq_getElem_cons h]
  rfl

theorem strictIncr_single (a : ℚ) : strictIncr [a] = true := rfl

theorem strictIncr_pair (a b : ℚ) : strictIncr [a, b] = decide (a < b) := by
  simp [strictIncr]

theorem npInterp_single {x x0 y0 : ℚ} (h : x ≤ x0) :
    npInterp x [(x0, y0)] = y0 := by
  simp [npInterp, h]

theorem npInterp_pair {x x0 y0 x1 y1 : ℚ} (h0 : x0 < x) (h1 : x ≤ x1) :
    npInterp x [(x0, y0), (x1, y1)] = y0 + (x - x0) * (y1 - y0) / (x1 - x0) := by
  simp [npInterp, npInterpGo, not_le.mpr h0, h1]

/-- In a batch-sorted table with pairwise-distinct batch sizes, if `g` is the
greatest row strictly below `x` and `u` the least row strictly above `x`, then
`glbPos` finds `g`, `lubPos` finds the next position, holding `u`, and the
two-row slice between them is `[g, u]`. -/
theorem glb_lub_adjacent (s : List Row) (x : ℚ)
    (hsort : List.Sorted batchLE s)
    (hnodup : (s.map Row.mean_batch_size).Nodup)
    (g u : Row) (hg : g ∈ s) (hu : u ∈ s)
    (hgx : g.mean_batch_size < x) (hxu : x < u.mean_batch_size)
    (hmax : ∀ r ∈ s, r.mean_batch_size ≤ x → r.mean_batch_size ≤ g.mean_batch_size)
    (hmin : ∀ r ∈ s, x ≤ r.mean_batch_size → u.mean_batch_size ≤ r.mean_batch_size) :
    ∃ i : Nat, glbPos s x = some i ∧ lubPos s x = some (i + 1)
      ∧ (s.drop i).take 2 = [g, u] := by
  obtain ⟨⟨ig, hig⟩, hgeq⟩ := List.mem_iff_get.mp hg
  obtain ⟨⟨iu, hiu⟩, hueq⟩ := List.mem_iff_get.mp hu
  -- the maximum batch size among rows with batch size ≤ x is g's
  have hgfilter : g ∈ s.filter (fun r => decide (r.mean_batch_size ≤ x)) :=
    List.mem_filter.mpr ⟨hg, by simp [le_of_lt hgx]⟩
  have hmapmem : g.mean_batch_size
      ∈ (s.filter (fun r => decide (r.mean_batch_size ≤ x))).map Row.mean_batch_size :=
    List.mem_map_of_mem _ hgfilter
  rcases hmaxq : maxQ ((s.filter (fun r => decide (r.mean_batch_size ≤ x))).map
      Row.mean_batch_size) with _ | m
  · rw [maxQ_none_iff] at hmaxq
    rw [hmaxq] at hmapmem
    exact absurd hmapmem (List.not_mem_nil _)
  · have hle := le_maxQ hmaxq _ hmapmem
    obtain ⟨rm, hrm_mem, hrm_eq⟩ := List.mem_map.mp (maxQ_mem hmaxq)
    have hrm := List.mem_filter.mp hrm_mem
    have hge : m ≤ g.mean_batch_size := by
      rw [← hrm_eq]
      exact hmax rm hrm.1 (by simpa using hrm.2)
    have hmg : m = g.mean_batch_size := le_antisymm hge hle
    -- the first row with batch size = m is g itself
    obtain ⟨i0, hi0⟩ := firstIdx_isSome_of_mem (fun r => r.mean_batch_size = m) hg hmg.symm
    obtain ⟨hi0len, hi0p, _⟩ := firstIdx_some _ hi0
    have hi0g : i0 = ig := nodup_batch_get_inj hnodup hi0len hig (by rw [hi0p, hmg, hgeq])
    have hgeti0 : s.get ⟨i0, hi0len⟩ = g := by
      have : (⟨i0, hi0len⟩ : Fin s.length) = ⟨ig, hig⟩ := Fin.ext hi0g
      rw [this, hgeq]
    -- the first row with batch size ≥ x is u itself
    obtain ⟨j0, hj0⟩ := firstIdx_isSome_of_mem
      (fun r => x ≤ r.mean_batch_size) hu (le_of_lt hxu)
    obtain ⟨hj0len, hj0p, hj0min⟩ := firstIdx_some _ hj0
    have hj0_le_iu : j0 ≤ iu := by
      by_contra hlt
      push_neg at hlt
      exact (hj0min iu hlt hiu) (by rw [hueq]; exact le_of_lt hxu)
    have hbatch_le : (s.get ⟨j0, hj0len⟩).mean_batch_size ≤ u.mean_batch_size := by
      rw [← hueq]
      exact sorted_get_mono hsort hj0_le_iu hiu
    have hbatch_ge : u.mean_batch_size ≤ (s.get ⟨j0, hj0len⟩).mean_batch_size :=
      hmin _ (List.get_mem s j0 hj0len) hj0p
    have hj0u : j0 = iu :=
      nodup_batch_get_inj hnodup hj0len hiu
        (by rw [le_antisymm hbatch_le hbatch_ge, hueq])
    have hgetj0 : s.get ⟨j0, hj0len⟩ = u := by
      have : (⟨j0, hj0len⟩ : Fin s.length) = ⟨iu, hiu⟩ := Fin.ext hj0u
      rw [this, hueq]
    -- the two positions are adjacent
    have hij : i0 < j0 := by
      by_contra hle'
      push_neg at hle'
      have h1 := sorted_get_mono hsort hle' hi0len
      rw [hi0p, hmg] at h1
      have h2 : x ≤ (s.get ⟨j0, hj0len⟩).mean_batch_size := hj0p
      have := lt_of_le_of_lt (h2.trans h1) hgx
      exact lt_irrefl _ this
    have hsucc : j0 = i0 + 1 := by
      by_contra hne
      have hk : i0 + 1 < j0 := by omega
      have hklen : i0 + 1 < s.length := lt_trans hk hj0len
      have h1 : (s.get ⟨i0 + 1, hklen⟩).mean_batch_size < x :=
        not_le.mp (hj0min (i0 + 1) hk hklen)
      have h2 := hmax _ (List.get_mem s (i0 + 1) hklen) (le_of_lt h1)
      have h3 := sorted_get_mono hsort (Nat.le_succ i0) hklen
      have h4 : (s.get ⟨i0 + 1, hklen⟩).mean_batch_size
          = (s.get ⟨i0, Nat.lt_of_succ_lt hklen⟩).mean_batch_size := by
        have h5 : (s.get ⟨i0, Nat.lt_of_succ_lt hklen⟩).mean_batch_size
            = g.mean_batch_size := by
          have : (⟨i0, Nat.lt_of_succ_lt hklen⟩ : Fin s.length) = ⟨i0, hi0len⟩ := rfl
          rw [this, hgeti0]
        exact le_antisymm (h5 ▸ h2) (h5 ▸ h3)
      have := nodup_batch_get_inj hnodup hklen (Nat.lt_of_succ_lt hklen) h4
      omega
    refine ⟨i0, ?_, ?_, ?_⟩
    · simp only [glbPos, hmaxq]
      exact hi0
    · rw [lubPos, ← hsucc]
      exact hj0
    · have hlen2 : i0 + 1 < s.length := hsucc ▸ hj0len
      rw [drop_take_two hlen2]
      have hgu : s.get ⟨i0 + 1, hlen2⟩ = u := by
        have : (⟨i0 + 1, hlen2⟩ : Fin s.length) = ⟨j0, hj0len⟩ := Fin.ext hsucc.symm
        rw [this, hgetj0]
      rw [hgu]
      have : s.get ⟨i0, Nat.lt_of_succ_lt hlen2⟩ = g := by
        have heq : (⟨i0, Nat.lt_of_succ_lt hlen2⟩ : Fin s.length) = ⟨i0, hi0len⟩ := rfl
        rw [heq, hgeti0]
      rw [this]

/-- In a batch-sorted table with pairwise-distinct batch sizes, if row `e` has
batch size exactly `x` then `glbPos` and `lubPos` both select `e`'s position
and the one-row slice between them is `[e]`. -/
theorem glb_lub_exact (s : List Row) (x : ℚ)
    (hsort : List.Sorted batchLE s)
    (hnodup : (s.map Row.mean_batch_size).Nodup)
    (e : Row) (he : e ∈ s) (hex : e.mean_batch_size = x) :
    ∃ i : Nat, glbPos s x = some i ∧ lubPos s x = some i
      ∧ (s.drop i).take 1 = [e] := by
  obtain ⟨⟨ie, hie⟩, heeq⟩ := List.mem_iff_get.mp he
  have hefilter : e ∈ s.filter (fun r => decide (r.mean_batch_size ≤ x)) :=
    List.mem_filter.mpr ⟨he, by simp [hex]⟩
  have hmapmem : e.mean_batch_size
      ∈ (s.filter (fun r => decide (r.mean_batch_size ≤ x))).map Row.mean_batch_size :=
    List.mem_map_of_mem _ hefilter
  rcases hmaxq : maxQ ((s.filter (fun r => decide (r.mean_batch_size ≤ x))).map
      Row.mean_batch_size) with _ | m
  · rw [maxQ_none_iff] at hmaxq
    rw [hmaxq] at hmapmem
    exact absurd hmapmem (List.not_mem_nil _)
  · have hle := le_maxQ hmaxq _ hmapmem
    obtain ⟨rm, hrm_mem, hrm_eq⟩ := List.mem_map.mp (maxQ_mem hmaxq)
    have hrm := List.mem_filter.mp hrm_mem
    have hge : m ≤ e.mean_batch_size := by
      rw [← hrm_eq, hex]
      simpa using hrm.2
    have hme : m = e.mean_batch_size := le_antisymm hge hle
    obtain ⟨i0, hi0⟩ := firstIdx_isSome_of_mem (fun r => r.mean_batch_size = m) he hme.symm
    obtain ⟨hi0len, hi0p, _⟩ := firstIdx_some _ hi0
    have hi0e : i0 = ie := nodup_batch_get_inj hnodup hi0len hie (by rw [hi0p, hme, heeq])
    have hgeti0 : s.get ⟨i0, hi0len⟩ = e := by
      have : (⟨i0, hi0len⟩ : Fin s.length) = ⟨ie, hie⟩ := Fin.ext hi0e
      rw [this, heeq]
    obtain ⟨j0, hj0⟩ := firstIdx_isSome_of_mem
      (fun r => x ≤ r.mean_batch_size) he (le_of_eq hex.symm)
    obtain ⟨hj0len, hj0p, hj0min⟩ := firstIdx_some _ hj0
    have hj0_le_ie : j0 ≤ ie := by
      by_contra hlt
      push_neg at hlt
      exact (hj0min ie hlt hie) (by rw [heeq, hex])
    have hbatch_le : (s.get ⟨j0, hj0len⟩).mean_batch_size ≤ x := by
      have := sorted_get_mono hsort hj0_le_ie hie
      rw [heeq, hex] at this
      exact this
    have hj0e : j0 = ie :=
      nodup_batch_get_inj hnodup hj0len hie (by rw [le_antisymm hbatch_le hj0p, ← hex, heeq])
    refine ⟨i0, ?_, ?_, ?_⟩
    · simp only [glbPos, hmaxq]
      exact hi0
    · rw [lubPos, show i0 = j0 from by omega]
      exact hj0
    · rw [drop_take_one hi0len, hgeti0]

/-- Shared reduction: when the config's batch size falls strictly between the
glb row `g` and the lub row `u` of its bundle (with pairwise distinct profiled
batch sizes), `estimate_performance` reduces to the two-point linear
interpolation guarded by the strict-monotonicity assertions. -/
theorem estimate_interp_case (t : List Row) (c : NodeConfig) (g u : Row)
    (hnodup : ((t.filter (fun r => bundleMatch r c)).map Row.mean_batch_size).Nodup)
    (hg : g ∈ t.filter (fun r => bundleMatch r c))
    (hu : u ∈ t.filter (fun r => bundleMatch r c))
    (hgx : g.mean_batch_size < c.batch_size)
    (hxu : c.batch_size < u.mean_batch_size)
    (hmax : ∀ r ∈ t.filter (fun r => bundleMatch r c),
        r.mean_batch_size ≤ c.batch_size → r.mean_batch_size ≤ g.mean_batch_size)
    (hmin : ∀ r ∈ t.filter (fun r => bundleMatch r c),
        c.batch_size ≤ r.mean_batch_size → u.mean_batch_size ≤ r.mean_batch_size) :
    estimate_performance t c =
      if g.mean_throughput_qps < u.mean_throughput_qps then
        if g.p99_latency < u.p99_latency then
          Except.ok
            (⟨g.p99_latency + (c.batch_size - g.mean_batch_size)
                * (u.p99_latency - g.p99_latency)
                / (u.mean_batch_size - g.mean_batch_size),
              (g.mean_throughput_qps + (c.batch_size - g.mean_batch_size)
                * (u.mean_throughput_qps - g.mean_throughput_qps)
                / (u.mean_batch_size - g.mean_batch_size)) * (c.num_replicas : ℚ),
              g.cost * (c.num_replicas : ℚ)⟩, [])
        else Except.error "AssertionError"
      else Except.error "AssertionError" := by
  have hperm : List.Perm (sortByBatch (t.filter (fun r => bundleMatch r c)))
      (t.filter (fun r => bundleMatch r c)) :=
    List.perm_insertionSort batchLE _
  have hsort : List.Sorted batchLE (sortByBatch (t.filter (fun r => bundleMatch r c))) :=
    List.sorted_insertionSort batchLE _
  have hnodup_s : ((sortByBatch (t.filter (fun r => bundleMatch r c))).map
      Row.mean_batch_size).Nodup := ((hperm.map _).nodup_iff).mpr hnodup
  obtain ⟨i, hglbeq, hlubeq, hslice⟩ :=
    glb_lub_adjacent _ c.batch_size hsort hnodup_s g u
      (hperm.mem_iff.mpr hg) (hperm.mem_iff.mpr hu) hgx hxu
      (fun r hr => hmax r (hperm.subset hr))
      (fun r hr => hmin r (hperm.subset hr))
  have hneq : ¬ ((sortByBatch (t.filter (fun r => bundleMatch r c))).isEmpty = true) := by
    rw [List.isEmpty_iff]
    exact List.ne_nil_of_mem (hperm.mem_iff.mpr hg)
  have hidx : i + 1 - i + 1 = 2 := by omega
  simp only [estimate_performance]
  rw [if_neg hneq]
  simp only [hglbeq, hlubeq, hidx, hslice, List.map_cons, List.map_nil,
    strictIncr_pair, decide_eq_true_eq]
  by_cases hthru : g.mean_throughput_qps < u.mean_throughput_qps
  · rw [if_pos hthru, if_pos hthru]
    by_cases hlat : g.p99_latency < u.p99_latency
    · rw [if_pos hlat, if_pos hlat,
        npInterp_pair hgx (le_of_lt hxu), npInterp_pair hgx (le_of_lt hxu)]
    · rw [if_neg hlat, if_neg hlat]
  · rw [if_neg hthru, if_neg hthru]

/-- C3: for a config whose resource bundle is profiled with pairwise-distinct
batch sizes: (interpolation case) if the batch size lies strictly between the
glb row `g` and the lub row `u` and the assertions pass (throughput and
latency strictly increase from `g` to `u`), the estimate is the standard
linear interpolation `y0 + (x - x0) * (y1 - y0) / (x1 - x0)` of latency and
throughput at the config batch size with the bundle cost, throughput and cost
scaled by replica count; (exact case) if the batch size equals a profiled
row's, the estimate is that row's exact latency, throughput and cost, with
throughput and cost scaled by replica count and latency unscaled. -/
theorem c3_estimate_interpolation (t : List Row) (c : NodeConfig) :
    (∀ g u : Row,
      ((t.filter (fun r => bundleMatch r c)).map Row.mean_batch_size).Nodup →
      g ∈ t.filter (fun r => bundleMatch r c) →
      u ∈ t.filter (fun r => bundleMatch r c) →
      g.mean_batch_size < c.batch_size →
      c.batch_size < u.mean_batch_size →
      (∀ r ∈ t.filter (fun r => bundleMatch r c),
          r.mean_batch_size ≤ c.batch_size → r.mean_batch_size ≤ g.mean_batch_size) →
      (∀ r ∈ t.filter (fun r => bundleMatch r c),
          c.batch_size ≤ r.mean_batch_size → u.mean_batch_size ≤ r.mean_batch_size) →
      g.mean_throughput_qps < u.mean_throughput_qps →
      g.p99_latency < u.p99_latency →
      estimate_performance t c =
        Except.ok
          (⟨g.p99_latency + (c.batch_size - g.mean_batch_size)
              * (u.p99_latency - g.p99_latency)
              / (u.mean_batch_size - g.mean_batch_size),
            (g.mean_throughput_qps + (c.batch_size - g.mean_batch_size)
              * (u.mean_throughput_qps - g.mean_throughput_qps)
              / (u.mean_batch_size - g.mean_batch_size)) * (c.num_replicas : ℚ),
            g.cost * (c.num_replicas : ℚ)⟩, []))
    ∧ (∀ e : Row,
      ((t.filter (fun r => bundleMatch r c)).map Row.mean_batch_size).Nodup →
      e ∈ t.filter (fun r => bundleMatch r c) →
      e.mean_batch_size = c.batch_size →
      estimate_performance t c =
        Except.ok (⟨e.p99_latency, e.mean_throughput_qps * (c.num_replicas : ℚ),
          e.cost * (c.num_replicas : ℚ)⟩, [])) := by
  constructor
  · intro g u hnodup hg hu hgx hxu hmax hmin hthru hlat
    rw [estimate_interp_case t c g u hnodup hg hu hgx hxu hmax hmin,
      if_pos hthru, if_pos hlat]
  · intro e hnodup he hex
    have hperm : List.Perm (sortByBatch (t.filter (fun r => bundleMatch r c)))
        (t.filter (fun r => bundleMatch r c)) :=
      List.perm_insertionSort batchLE _
    have hsort : List.Sorted batchLE
        (sortByBatch (t.filter (fun r => bundleMatch r c))) :=
      List.sorted_insertionSort batchLE _
    have hnodup_s : ((sortByBatch (t.filter (fun r => bundleMatch r c))).map
        Row.mean_batch_size).Nodup := ((hperm.map _).nodup_iff).mpr hnodup
    obtain ⟨i, hglbeq, hlubeq, hslice⟩ :=
      glb_lub_exact _ c.batch_size hsort hnodup_s e (hperm.mem_iff.mpr he) hex
    have hneq : ¬ ((sortByBatch (t.filter (fun r => bundleMatch r c))).isEmpty
        = true) := by
      rw [List.isEmpty_iff]
      exact List.ne_nil_of_mem (hperm.mem_iff.mpr he)
    have hidx : i - i + 1 = 1 := by omega
    simp only [estimate_performance]
    rw [if_neg hneq]
    simp only [hglbeq, hlubeq, hidx, hslice, List.map_cons, List.map_nil,
      strictIncr_single]
    rw [if_pos trivial, if_pos trivial,
      npInterp_single (le_of_eq hex.symm), npInterp_single (le_of_eq hex.symm)]

/-- First profile row of the C3 witness (batch 10). -/
def rowC3a : Row := ⟨"k80", 2, "aws", 10, 100, 1, 3⟩

/-- Second profile row of the C3 witness (batch 20). -/
def rowC3b : Row := ⟨"k80", 2, "aws", 20, 200, 2, 3⟩

/-- C3 witness config for the interpolation case (batch 15, midpoint). -/
def cfgC3 : NodeConfig := ⟨"n", 2, "k80", 15, 1, "aws"⟩

/-- C3 witness config for the exact-match case (batch 20, 2 replicas). -/
def cfgC3e : NodeConfig := ⟨"n", 2, "k80", 20, 2, "aws"⟩

theorem c3_estimate_interpolation_witness :
    estimate_performance [rowC3a, rowC3b] cfgC3
        = Except.ok (⟨3/2, 150, 3⟩, [])
    ∧ estimate_performance [rowC3a, rowC3b] cfgC3e
        = Except.ok (⟨2, 400, 6⟩, []) := by
  constructor
  · rw [(c3_estimate_interpolation [rowC3a, rowC3b] cfgC3).1 rowC3a rowC3b
      (by decide) (by decide) (by decide) (by decide) (by decide)
      (by decide) (by decide) (by decide) (by decide)]
    decide
  · rw [(c3_estimate_interpolation [rowC3a, rowC3b] cfgC3e).2 rowC3b
      (by decide) (by decide) (by decide)]
    decide

/-- When every bundle row lies strictly above `x`, `glbPos` finds nothing and
`lubPos` finds the minimum-batch row. -/
theorem lub_only (s : List Row) (x : ℚ)
    (hsort : List.Sorted batchLE s)
    (hnodup : (s.map Row.mean_batch_size).Nodup)
    (u : Row) (hu : u ∈ s)
    (hall : ∀ r ∈ s, x < r.mean_batch_size)
    (hmin : ∀ r ∈ s, u.mean_batch_size ≤ r.mean_batch_size) :
    glbPos s x = none
    ∧ ∃ j, lubPos s x = some j ∧ ∃ h : j < s.length, s.get ⟨j, h⟩ = u := by
  constructor
  · have hfil : s.filter (fun r => decide (r.mean_batch_size ≤ x)) = [] := by
      rw [List.filter_eq_nil_iff]
      intro r hr
      simp [not_le.mpr (hall r hr)]
    simp [glbPos, hfil, maxQ]
  · obtain ⟨⟨iu, hiu⟩, hueq⟩ := List.mem_iff_get.mp hu
    obtain ⟨j0, hj0⟩ := firstIdx_isSome_of_mem
      (fun r => x ≤ r.mean_batch_size) hu (le_of_lt (hall u hu))
    obtain ⟨hj0len, hj0p, hj0min⟩ := firstIdx_some _ hj0
    have hj0_le_iu : j0 ≤ iu := by
      by_contra hlt
      push_neg at hlt
      exact (hj0min iu hlt hiu) (by rw [hueq]; exact le_of_lt (hall u hu))
    have h1 : (s.get ⟨j0, hj0len⟩).mean_batch_size ≤ u.mean_batch_size := by
      rw [← hueq]
      exact sorted_get_mono hsort hj0_le_iu hiu
    have h2 : u.mean_batch_size ≤ (s.get ⟨j0, hj0len⟩).mean_batch_size :=
      hmin _ (List.get_mem s j0 hj0len)
    have hj0u : j0 = iu :=
      nodup_batch_get_inj hnodup hj0len hiu (by rw [le_antisymm h1 h2, hueq])
    refine ⟨j0, hj0, hj0len, ?_⟩
    have : (⟨j0, hj0len⟩ : Fin s.length) = ⟨iu, hiu⟩ := Fin.ext hj0u
    rw [this, hueq]

/-- C5 (amended): for a config whose batch size is below the smallest profiled
batch size of its (non-empty, distinct-batch) bundle, `estimate_performance`
returns the minimum-batch row's raw latency with throughput and cost scaled by
replica count, and emits *no* warning (the warning list is empty; the only
warning in the code belongs to the above-maximum case). -/
theorem c5_lower_extrapolation_spec (t : List Row) (c : NodeConfig) (u : Row)
    (hnodup : ((t.filter (fun r => bundleMatch r c)).map Row.mean_batch_size).Nodup)
    (hu : u ∈ t.filter (fun r => bundleMatch r c))
    (hall : ∀ r ∈ t.filter (fun r => bundleMatch r c),
        c.batch_size < r.mean_batch_size)
    (hmin : ∀ r ∈ t.filter (fun r => bundleMatch r c),
        u.mean_batch_size ≤ r.mean_batch_size) :
    estimate_performance t c =
      Except.ok (⟨u.p99_latency, u.mean_throughput_qps * (c.num_replicas : ℚ),
        u.cost * (c.num_replicas : ℚ)⟩, []) := by
  have hperm : List.Perm (sortByBatch (t.filter (fun r => bundleMatch r c)))
      (t.filter (fun r => bundleMatch r c)) :=
    List.perm_insertionSort batchLE _
  have hsort : List.Sorted batchLE
      (sortByBatch (t.filter (fun r => bundleMatch r c))) :=
    List.sorted_insertionSort batchLE _
  have hnodup_s : ((sortByBatch (t.filter (fun r => bundleMatch r c))).map
      Row.mean_batch_size).Nodup := ((hperm.map _).nodup_iff).mpr hnodup
  obtain ⟨hglb, j, hlub, hjlen, hjget⟩ :=
    lub_only _ c.batch_size hsort hnodup_s u (hperm.mem_iff.mpr hu)
      (fun r hr => hall r (hperm.subset hr))
      (fun r hr => hmin r (hperm.subset hr))
  have hneq : ¬ ((sortByBatch (t.filter (fun r => bundleMatch r c))).isEmpty
      = true) := by
    rw [List.isEmpty_iff]
    exact List.ne_nil_of_mem (hperm.mem_iff.mpr hu)
  simp only [estimate_performance]
  rw [if_neg hneq]
  simp only [hglb, hlub, List.get?_eq_get hjlen, hjget]

/-- Profile row of the C5 amended witness (batch 6). -/
def rowC5w : Row := ⟨"p100", 2, "gcp", 6, 12, 2, 5⟩

/-- Config of the C5 amended witness (batch 3, below the profiled minimum,
2 replicas). -/
def cfgC5w : NodeConfig := ⟨"p", 2, "p100", 3, 2, "gcp"⟩

theorem c5_lower_extrapolation_spec_witness :
    estimate_performance [rowC5w] cfgC5w = Except.ok (⟨2, 24, 10⟩, []) := by
  rw [c5_lower_extrapolation_spec [rowC5w] cfgC5w rowC5w
    (by decide) (by decide) (by decide) (by decide)]
  decide

/-- C6 (amended): monotonicity of throughput/latency in batch size *is*
enforced by assertion in the interpolation branch of `estimate_performance`:
for a config whose batch size lies strictly between the glb row `g` and the
lub row `u` of its bundle, if the throughput or the p99 latency fails to
strictly increase from `g` to `u`, the call raises an assertion error instead
of returning an estimate. -/
theorem c6_interpolation_assertion_spec (t : List Row) (c : NodeConfig)
    (g u : Row)
    (hnodup : ((t.filter (fun r => bundleMatch r c)).map Row.mean_batch_size).Nodup)
    (hg : g ∈ t.filter (fun r => bundleMatch r c))
    (hu : u ∈ t.filter (fun r => bundleMatch r c))
    (hgx : g.mean_batch_size < c.batch_size)
    (hxu : c.batch_size < u.mean_batch_size)
    (hmax : ∀ r ∈ t.filter (fun r => bundleMatch r c),
        r.mean_batch_size ≤ c.batch_size → r.mean_batch_size ≤ g.mean_batch_size)
    (hmin : ∀ r ∈ t.filter (fun r => bundleMatch r c),
        c.batch_size ≤ r.mean_batch_size → u.mean_batch_size ≤ r.mean_batch_size)
    (hnonmono : ¬ (g.mean_throughput_qps < u.mean_throughput_qps)
        ∨ ¬ (g.p99_latency < u.p99_latency)) :
    estimate_performance t c = Except.error "AssertionError" := by
  rw [estimate_interp_case t c g u hnodup hg hu hgx hxu hmax hmin]
  rcases hnonmono with h | h
  · rw [if_neg h]
  · by_cases hthru : g.mean_throughput_qps < u.mean_throughput_qps
    · rw [if_pos hthru, if_neg h]
    · rw [if_neg hthru]

/-- First profile row of the C6 amended witness (throughput 50 at batch 2). -/
def rowC6wa : Row := ⟨"t4", 1, "gcp", 2, 50, 1, 7⟩

/-- Second profile row of the C6 amended witness (same throughput 50 at
batch 4). -/
def rowC6wb : Row := ⟨"t4", 1, "gcp", 4, 50, 3, 7⟩

/-- Config of the C6 amended witness (batch 3, strictly between the rows). -/
def cfgC6w : NodeConfig := ⟨"z", 1, "t4", 3, 1, "gcp"⟩

theorem c6_interpolation_assertion_spec_witness :
    estimate_performance [rowC6wa, rowC6wb] cfgC6w
      = Except.error "AssertionError" :=
  c6_interpolation_assertion_spec [rowC6wa, rowC6wb] cfgC6w rowC6wa rowC6wb
    (by decide) (by decide) (by decide) (by decide) (by decide)
    (by decide) (by decide) (Or.inl (by decide))

/-! ## C2: pipeline aggregation -/

/-- All source-to-sink stage occurrences, one per path they lie on (the order
in which the pipeline loop visits non-sentinel stages). -/
def stageOccurrences (paths : List (List String)) : List String :=
  paths.flatMap (fun p => p.filter (fun n => !(isSentinel n)))

/-- The summed latency of the non-sentinel stages of one path. -/
def pathLatency (lat : String → ℚ) (p : List String) : ℚ :=
  ((p.filter (fun n => !(isSentinel n))).map lat).sum

/-- The depth-first enumeration emits exactly the source-to-sink paths of
length at most the fuel bound. -/
theorem mem_enumerate_paths (adj : String → List String) :
    ∀ (fuel : Nat) (pre : List String) (node : String) (p : List String),
      p ∈ enumerate_paths adj fuel pre node
        ↔ ∃ q, ReachesSink adj node q ∧ q.length ≤ fuel ∧ p = pre ++ q := by
  intro fuel
  induction fuel with
  | zero =>
    intro pre node p
    simp only [enumerate_paths, List.not_mem_nil, false_iff]
    rintro ⟨q, hq, hlen, _⟩
    cases hq <;> simp at hlen
  | succ fuel ih =>
    intro pre node p
    by_cases hnode : node = SINK
    · subst hnode
      simp only [enumerate_paths, if_true, List.mem_singleton]
      constructor
      · rintro rfl
        exact ⟨[SINK], ReachesSink.sink, by simp, rfl⟩
      · rintro ⟨q, hq, hlen, rfl⟩
        cases hq with
        | sink => rfl
        | step hne hnext hrest => exact absurd rfl hne
    · simp only [enumerate_paths, if_neg hnode, List.mem_flatMap]
      constructor
      · rintro ⟨next, hnext, hp⟩
        obtain ⟨q', hq', hlen', rfl⟩ := (ih (pre ++ [node]) next _).mp hp
        exact ⟨node :: q', ReachesSink.step hnode hnext hq',
          by simpa using Nat.succ_le_succ hlen', by simp⟩
      · rintro ⟨q, hq, hlen, rfl⟩
        cases hq with
        | sink => exact absurd rfl hnode
        | @step _ next rest hne hnext hrest =>
          refine ⟨next, hnext, (ih (pre ++ [node]) next _).mpr
            ⟨rest, hrest, Nat.le_of_succ_le_succ (by simpa using hlen), by simp⟩⟩

/-- The bottleneck pair threaded through a list of stage occurrences. -/
def bFold (sc : String → ℚ) (b : Option (ℚ × String)) (occ : List String) :
    Option (ℚ × String) :=
  occ.foldl (fun b n => updateBottleneck b (sc n) n) b

/-- The `max_latency` accumulator threaded through a list of path latencies. -/
def maxFold (o : Option ℚ) (l : List ℚ) : Option ℚ := l.foldl maxStep o

theorem bFold_min (sc : String → ℚ) :
    ∀ (occ : List String) (m : ℚ) (bn : String),
      ∃ M BN, bFold sc (some (m, bn)) occ = some (M, BN)
        ∧ M ≤ m ∧ (∀ x ∈ occ, M ≤ sc x)
        ∧ ((BN = bn ∧ M = m) ∨ (BN ∈ occ ∧ sc BN = M)) := by
  intro occ
  induction occ with
  | nil =>
    intro m bn
    exact ⟨m, bn, rfl, le_refl _, by simp, Or.inl ⟨rfl, rfl⟩⟩
  | cons n ns ih =>
    intro m bn
    by_cases hlt : sc n < m
    · obtain ⟨M, BN, heq, hle, hall, hcase⟩ := ih (sc n) n
      refine ⟨M, BN, ?_, le_trans hle (le_of_lt hlt), ?_, ?_⟩
      · simp only [bFold, List.foldl_cons, updateBottleneck, if_pos hlt]
        exact heq
      · intro x hx
        rcases List.mem_cons.mp hx with rfl | hx'
        · exact hle
        · exact hall x hx'
      · rcases hcase with ⟨hbn, hM⟩ | ⟨hmem, hsc⟩
        · exact Or.inr ⟨hbn ▸ List.mem_cons_self n ns, by rw [hbn, hM]⟩
        · exact Or.inr ⟨List.mem_cons_of_mem _ hmem, hsc⟩
    · obtain ⟨M, BN, heq, hle, hall, hcase⟩ := ih m bn
      refine ⟨M, BN, ?_, hle, ?_, ?_⟩
      · simp only [bFold, List.foldl_cons, updateBottleneck, if_neg hlt]
        exact heq
      · intro x hx
        rcases List.mem_cons.mp hx with rfl | hx'
        · exact le_trans hle (not_lt.mp hlt)
        · exact hall x hx'
      · rcases hcase with h | ⟨hmem, hsc⟩
        · exact Or.inl h
        · exact Or.inr ⟨List.mem_cons_of_mem _ hmem, hsc⟩

theorem bFold_none_spec (sc : String → ℚ) (occ : List String) (hne : occ ≠ []) :
    ∃ M BN, bFold sc none occ = some (M, BN) ∧ BN ∈ occ ∧ sc BN = M
      ∧ ∀ x ∈ occ, M ≤ sc x := by
  match occ, hne with
  | n :: ns, _ =>
    obtain ⟨M, BN, heq, hle, hall, hcase⟩ := bFold_min sc ns (sc n) n
    refine ⟨M, BN, ?_, ?_, ?_, ?_⟩
    · simp only [bFold, List.foldl_cons, updateBottleneck]
      exact heq
    · rcases hcase with ⟨hbn, _⟩ | ⟨hmem, _⟩
      · exact hbn ▸ List.mem_cons_self n ns
      · exact List.mem_cons_of_mem _ hmem
    · rcases hcase with ⟨hbn, hM⟩ | ⟨_, hsc⟩
      · rw [hbn, hM]
      · exact hsc
    · intro x hx
      rcases List.mem_cons.mp hx with rfl | hx'
      · exact hle
      · exact hall x hx'

theorem maxFold_some (l : List ℚ) : ∀ m : ℚ,
    ∃ M, maxFold (some m) l = some M ∧ m ≤ M ∧ (M = m ∨ M ∈ l)
      ∧ ∀ x ∈ l, x ≤ M := by
  induction l with
  | nil =>
    intro m
    exact ⟨m, rfl, le_refl _, Or.inl rfl, by simp⟩
  | cons x xs ih =>
    intro m
    obtain ⟨M, heq, hle, hcase, hall⟩ := ih (max m x)
    refine ⟨M, ?_, le_trans (le_max_left m x) hle, ?_, ?_⟩
    · simp only [maxFold, List.foldl_cons, maxStep]
      exact heq
    · rcases hcase with rfl | hmem
      · rcases max_choice m x with h | h
        · exact Or.inl h
        · exact Or.inr (by rw [h]; exact List.mem_cons_self x xs)
      · exact Or.inr (List.mem_cons_of_mem _ hmem)
    · intro y hy
      rcases List.mem_cons.mp hy with rfl | hy'
      · exact le_trans (le_max_right m y) hle
      · exact hall y hy'

theorem maxFold_none_spec (l : List ℚ) (hne : l ≠ []) :
    ∃ M, maxFold none l = some M ∧ M ∈ l ∧ ∀ x ∈ l, x ≤ M := by
  match l, hne with
  | x :: xs, _ =>
    obtain ⟨M, heq, hle, hcase, hall⟩ := maxFold_some xs x
    refine ⟨M, ?_, ?_, ?_⟩
    · simp only [maxFold, List.foldl_cons, maxStep]
      exact heq
    · rcases hcase with rfl | hmem
      · exact List.mem_cons_self M xs
      · exact List.mem_cons_of_mem _ hmem
    · intro y hy
      rcases List.mem_cons.mp hy with rfl | hy'
      · exact hle
      · exact hall y hy'

theorem runNodes_ok (scale : String → ℚ) (profiles : String → List Row)
    (configs : String → NodeConfig) (lat th co : String → ℚ) :
    ∀ (ns : List String) (st : PathState),
      (∀ n ∈ ns.filter (fun n => !(isSentinel n)),
        estPerf profiles configs n = Except.ok ⟨lat n, th n, co n⟩) →
      runNodes scale profiles configs ns st =
        Except.ok
          ⟨st.path_latency + ((ns.filter (fun n => !(isSentinel n))).map lat).sum,
           bFold (fun n => th n / scale n) st.bottleneck
             (ns.filter (fun n => !(isSentinel n))),
           st.total_cost + ((ns.filter (fun n => !(isSentinel n))).map co).sum⟩ := by
  intro ns
  induction ns with
  | nil =>
    intro st h
    simp [runNodes, bFold]
  | cons n ns ih =>
    intro st h
    by_cases hs : isSentinel n = true
    · have hfil : (n :: ns).filter (fun n => !(isSentinel n))
          = ns.filter (fun n => !(isSentinel n)) := by
        simp [List.filter_cons, hs]
      rw [hfil] at h
      rw [hfil]
      simp only [runNodes, if_pos hs]
      exact ih st h
    · have hnb : isSentinel n = false := by simpa using hs
      have hfil : (n :: ns).filter (fun n => !(isSentinel n))
          = n :: ns.filter (fun n => !(isSentinel n)) := by
        simp [List.filter_cons, hnb]
      rw [hfil] at h
      rw [hfil]
      have hn := h n (List.mem_cons_self n _)
      simp only [runNodes, hnb, Bool.false_eq_true, if_false, hn]
      rw [ih _ (fun m hm => h m (List.mem_cons_of_mem n hm))]
      simp only [List.map_cons, List.sum_cons, bFold, List.foldl_cons]
      ring_nf

theorem runPaths_ok (scale : String → ℚ) (profiles : String → List Row)
    (configs : String → NodeConfig) (lat th co : String → ℚ) :
    ∀ (ps : List (List String)) (acc : PipeAcc),
      (∀ n ∈ stageOccurrences ps,
        estPerf profiles configs n = Except.ok ⟨lat n, th n, co n⟩) →
      runPaths scale profiles configs ps acc =
        Except.ok
          ⟨bFold (fun n => th n / scale n) acc.bottleneck (stageOccurrences ps),
           acc.total_cost + ((stageOccurrences ps).map co).sum,
           maxFold acc.max_latency (ps.map (pathLatency lat))⟩ := by
  intro ps
  induction ps with
  | nil =>
    intro acc h
    simp [runPaths, stageOccurrences, bFold, maxFold]
  | cons p ps ih =>
    intro acc h
    have hp : ∀ n ∈ p.filter (fun m => !(isSentinel m)),
        estPerf profiles configs n = Except.ok ⟨lat n, th n, co n⟩ :=
      fun n hn => h n (by
        simp only [stageOccurrences, List.flatMap_cons, List.mem_append]
        exact Or.inl hn)
    have hps : ∀ n ∈ stageOccurrences ps,
        estPerf profiles configs n = Except.ok ⟨lat n, th n, co n⟩ :=
      fun n hn => h n (by
        simp only [stageOccurrences, List.flatMap_cons, List.mem_append]
        exact Or.inr hn)
    simp only [runPaths,
      runNodes_ok scale profiles configs lat th co p ⟨0, acc.bottleneck, acc.total_cost⟩ hp,
      ih _ hps]
    simp only [stageOccurrences, List.flatMap_cons, List.map_append, List.sum_append,
      List.map_cons, bFold, List.foldl_append, List.foldl_cons, maxFold,
      pathLatency, zero_add, add_assoc]

/-- C2: for an acyclic pipeline (every SOURCE-to-SINK path within the fuel
bound, as the last conjunct characterizes) on which every per-stage estimate
succeeds, `estimate_pipeline_performance_for_config` returns latency equal to
the maximum over all enumerated SOURCE-to-SINK paths of the summed non-sentinel
stage latencies, throughput equal to the minimum over all stage occurrences on
all paths of the stage throughput divided by its scale factor, cost equal to
the sum of stage cost over every stage occurrence on every path (a stage shared
by several paths is counted once per path), and a bottleneck stage attaining
that minimum scaled throughput. -/
theorem c2_pipeline_estimate_spec (adj : String → List String) (fuel : Nat)
    (scale : String → ℚ) (configs : String → NodeConfig)
    (profiles : String → List Row) (lat th co : String → ℚ)
    (wr : String → List String)
    (hpaths : enumerate_paths adj fuel [] SOURCE ≠ [])
    (hocc : stageOccurrences (enumerate_paths adj fuel [] SOURCE) ≠ [])
    (hest : ∀ n ∈ stageOccurrences (enumerate_paths adj fuel [] SOURCE),
        estimate_performance (profiles n) (configs n)
          = Except.ok (⟨lat n, th n, co n⟩, wr n)) :
    ∃ est : PipelineEstimate, ∃ b : String,
      estimate_pipeline_performance_for_config adj fuel scale configs profiles
          = Except.ok (est, some b)
      ∧ (∃ L, est.latency = some L
          ∧ L ∈ (enumerate_paths adj fuel [] SOURCE).map (pathLatency lat)
          ∧ ∀ x ∈ (enumerate_paths adj fuel [] SOURCE).map (pathLatency lat),
              x ≤ L)
      ∧ (∃ T, est.throughput = some T
          ∧ b ∈ stageOccurrences (enumerate_paths adj fuel [] SOURCE)
          ∧ th b / scale b = T
          ∧ ∀ n ∈ stageOccurrences (enumerate_paths adj fuel [] SOURCE),
              T ≤ th n / scale n)
      ∧ est.cost
          = ((stageOccurrences (enumerate_paths adj fuel [] SOURCE)).map co).sum
      ∧ (∀ p, p ∈ enumerate_paths adj fuel [] SOURCE
          ↔ ReachesSink adj SOURCE p ∧ p.length ≤ fuel) := by
  have hest' : ∀ n ∈ stageOccurrences (enumerate_paths adj fuel [] SOURCE),
      estPerf profiles configs n = Except.ok ⟨lat n, th n, co n⟩ := by
    intro n hn
    simp only [estPerf, hest n hn]
  have hrun := runPaths_ok scale profiles configs lat th co
    (enumerate_paths adj fuel [] SOURCE) ⟨none, 0, none⟩ hest'
  obtain ⟨M, BN, hb, hbmem, hbsc, hball⟩ :=
    bFold_none_spec (fun n => th n / scale n) _ hocc
  obtain ⟨L, hl, hlmem, hlall⟩ :=
    maxFold_none_spec ((enumerate_paths adj fuel [] SOURCE).map (pathLatency lat))
      (by simpa using hpaths)
  have hni : ¬ ((enumerate_paths adj fuel [] SOURCE).isEmpty = true) := by
    rw [List.isEmpty_iff]
    exact hpaths
  have hEQ : estimate_pipeline_performance_for_config adj fuel scale configs profiles
      = Except.ok
          (⟨some L, some M,
            ((stageOccurrences (enumerate_paths adj fuel [] SOURCE)).map co).sum⟩,
           some BN) := by
    simp only [estimate_pipeline_performance_for_config]
    rw [if_neg hni]
    simp only [hrun, hb, hl, Option.map_some', zero_add]
  refine ⟨_, BN, hEQ, ⟨L, rfl, hlmem, hlall⟩, ⟨M, rfl, hbmem, hbsc, hball⟩, rfl, ?_⟩
  intro p
  rw [mem_enumerate_paths adj fuel [] SOURCE p]
  constructor
  · rintro ⟨q, hq, hlen, rfl⟩
    exact ⟨by simpa using hq, by simpa using hlen⟩
  · rintro ⟨hr, hlen⟩
    exact ⟨p, hr, hlen, (List.nil_append p).symm⟩

/-- Profile row of the C2 witness. -/
def rowC2 : Row := ⟨"none", 1, "aws", 4, 10, 2, 3⟩

/-- Stage config of the C2 witness (exact batch-size match). -/
def cfgC2 : NodeConfig := ⟨"s", 1, "none", 4, 1, "aws"⟩

/-- Adjacency list of the C2 witness pipeline:
SOURCE -> A -> {B, SINK}, B -> SINK. -/
def adjC2 : String → List String := fun n =>
  if n = SOURCE then ["A"]
  else if n = "A" then ["B", SINK]
  else if n = "B" then [SINK]
  else []

theorem c2_pipeline_estimate_spec_witness :
    ∃ est : PipelineEstimate, ∃ b : String,
      estimate_pipeline_performance_for_config adjC2 5 (fun _ => 1)
          (fun _ => cfgC2) (fun _ => [rowC2]) = Except.ok (est, some b) := by
  obtain ⟨est, b, heq, _⟩ := c2_pipeline_estimate_spec adjC2 5 (fun _ => 1)
    (fun _ => cfgC2) (fun _ => [rowC2]) (fun _ => 2) (fun _ => 10) (fun _ => 3)
    (fun _ => []) (by decide) (by decide) (by decide)
  exact ⟨est, b, heq⟩

end PlotsModelComp
